import Mathlib

/-
Verification of the WebP-to-PNG converter page (src/pages/index.tsx).

The page keeps a list of ConvertedImage records in a single state container,
registers one record per accepted file, settles each record asynchronously to
done or error, and can bundle all done records into a zip archive.  The
definitions below are a shallow embedding of that code; browser primitives
(canvas, createImageBitmap, toDataURL, the base64 channel) are modelled from
the specification where noted.
-/

namespace Webp2Png

/-- The per-item status field, from the ConvertedImage type in index.tsx. -/
inductive Status where
  | pending
  | converting
  | done
  | error
deriving DecidableEq

/-- The ConvertedImage record of index.tsx: identifier, original file name,
PNG data URL (empty until conversion succeeds) and status. -/
structure ConvertedImage where
  id : String
  originalName : String
  pngUrl : String
  status : Status
deriving DecidableEq

/-- Modelled from the spec: a pixel surface at native dimensions, the
intermediate representation produced by the browser's image decoder. -/
structure Surface where
  width : Nat
  height : Nat
  pixels : List Nat
deriving DecidableEq

/-- An input file as handed to processFile: declared name and content type,
plus (modelled from the spec) its decodable pixel content, which is none
exactly when the browser's decoder would fail on it. -/
structure InputFile where
  name : String
  type : String
  image : Option Surface
deriving DecidableEq

/-- The content-type gate of processFile, line 21:
file.type.startsWith('image/'). -/
def isImageType (ty : String) : Bool :=
  "image/".data.isPrefixOf ty.data

/-- The synchronous registration step of processFile, lines 21-24: a rejected
file leaves the list unchanged; an accepted file appends one fresh record in
converting status with an empty pngUrl. -/
def processFileRegister (file : InputFile) (id : String)
    (imgs : List ConvertedImage) : List ConvertedImage :=
  if isImageType file.type then
    imgs ++ [⟨id, file.name, "", Status.converting⟩]
  else imgs

/-- The success continuation of processFile, lines 37-39: the record with the
matching id gets the produced pngUrl and status done. -/
def settleSuccess (id url : String) (imgs : List ConvertedImage) :
    List ConvertedImage :=
  imgs.map fun img =>
    if img.id = id then { img with pngUrl := url, status := Status.done } else img

/-- The catch branch of processFile, lines 42-44: the record with the matching
id gets status error; its pngUrl is left as it is. -/
def settleFailure (id : String) (imgs : List ConvertedImage) :
    List ConvertedImage :=
  imgs.map fun img =>
    if img.id = id then { img with status := Status.error } else img

/-- The per-item removal action, line 157:
setImages(prev => prev.filter(i => i.id !== img.id)). -/
def removeItem (id : String) (imgs : List ConvertedImage) :
    List ConvertedImage :=
  imgs.filter fun i => decide (i.id ≠ id)

/-- The Clear All action, line 113: setImages([]). -/
def clearAll (_ : List ConvertedImage) : List ConvertedImage := []

/-- The extension-stripping regex of lines 65/143/149, originalName.replace
with pattern dot, one or more characters that are neither dot nor slash,
end of string: drop the final extension when such a match exists. -/
def removeExtension (s : String) : String :=
  let r := s.data.reverse
  let seg := r.takeWhile fun c => decide (c ≠ '.' ∧ c ≠ '/')
  match r.drop seg.length with
  | '.' :: rest => if seg.isEmpty then s else String.mk rest.reverse
  | _ => s

/-- The archive entry name derived on line 65: basename plus ".png". -/
def derivedName (img : ConvertedImage) : String :=
  removeExtension img.originalName ++ ".png"

/-- The data-URI stripping regex of line 64: remove the anchored
"data:image/png;base64," prefix when present. -/
def stripDataUrl (s : String) : String :=
  let p := "data:image/png;base64,".data
  if p.isPrefixOf s.data then String.mk (s.data.drop p.length) else s

/-- The zip.file call of line 66 under JSZip semantics: a repeated entry name
overwrites the existing entry in place, a new name is appended. -/
def zipAdd : List (String × String) → String → String → List (String × String)
  | [], name, d => [(name, d)]
  | e :: t, name, d =>
      if e.1 = name then (name, d) :: t else e :: zipAdd t name d

/-- The archive produced by downloadAll, lines 62-67: fold zip.file over the
done items, entry name from the original name, entry data from the stripped
data URL. -/
def downloadAllEntries (imgs : List ConvertedImage) : List (String × String) :=
  (imgs.filter fun i => decide (i.status = Status.done)).foldl
    (fun acc i => zipAdd acc (derivedName i) (stripDataUrl i.pngUrl)) []

/-- The fixed save name passed to saveAs on line 70. -/
def downloadAllSaveName : String := "converted_images.zip"

/-- The archive entries carrying a given name. -/
def entriesNamed (n : String) (entries : List (String × String)) :
    List (String × String) :=
  entries.filter fun e => decide (e.1 = n)

/-- The done items whose derived entry name is a given name, in list order. -/
def doneNamed (n : String) (imgs : List ConvertedImage) : List ConvertedImage :=
  (imgs.filter fun i => decide (i.status = Status.done)).filter
    fun i => decide (derivedName i = n)

/-- Modelled from the spec: the PNG byte stream for a pixel surface, an
injective encoding that records the surface's dimensions; the actual PNG
codec lives in the browser, not in this repository. -/
def pngEncode (s : Surface) : List Nat :=
  s.width :: s.height :: s.pixels.length :: s.pixels

/-- Modelled from the spec: decoding the PNG byte stream back to a surface;
inverse of pngEncode by construction. -/
def pngDecode : List Nat → Option Surface
  | w :: h :: len :: rest =>
      if rest.length = len then some ⟨w, h, rest⟩ else none
  | _ => none

/-- Modelled from the spec: the base64 text channel of a data URL, as an
injective byte-to-text encoding with an explicit inverse. -/
def bytesToText : List Nat → List Char
  | [] => []
  | b :: bs => List.replicate b 'A' ++ 'B' :: bytesToText bs

/-- Modelled from the spec: the inverse of bytesToText. -/
def textToBytes : List Char → Option (List Nat)
  | [] => some []
  | c :: rest =>
      if c = 'B' then (textToBytes rest).map fun bs => 0 :: bs
      else if c = 'A' then
        match textToBytes rest with
        | some (b :: bs) => some ((b + 1) :: bs)
        | _ => none
      else none

/-- The canvas phase of processFile, lines 28-34: the canvas is sized to the
bitmap's width and height and the bitmap is drawn at the origin, so the
canvas surface equals the bitmap surface. -/
def drawToCanvas (bmp : Surface) : Surface :=
  ⟨bmp.width, bmp.height, bmp.pixels⟩

/-- The toDataURL export of line 35, with the browser's PNG encoder and
base64 channel modelled from the spec: the fixed data-URI prefix followed
by the encoded PNG bytes of the canvas surface. -/
def canvasToDataURL (canvas : Surface) : String :=
  String.mk ("data:image/png;base64,".data ++ bytesToText (pngEncode canvas))

/-- Modelled from the spec: createImageBitmap decodes a file to its pixel
surface at native dimensions, failing exactly when the file is not a valid
image. -/
def createImageBitmap (file : InputFile) : Option Surface :=
  file.image

/-- The whole conversion of one decoded bitmap, lines 27-35. -/
def convertImage (bmp : Surface) : String :=
  canvasToDataURL (drawToCanvas bmp)

/-- The complete effect of one processFile call on the item list, assuming
its asynchronous part has settled: rejection is a no-op, otherwise register
then settle to done with the converted data URL, or to error when decoding
fails. -/
def processFileRun (file : InputFile) (id : String)
    (imgs : List ConvertedImage) : List ConvertedImage :=
  if isImageType file.type then
    let reg := imgs ++ [⟨id, file.name, "", Status.converting⟩]
    match createImageBitmap file with
    | some bmp => settleSuccess id (convertImage bmp) reg
    | none => settleFailure id reg
  else imgs

/-- The page state together with ghost history: the item list, every
identifier ever generated, and the identifiers whose asynchronous settle has
not yet fired. -/
structure Sys where
  images : List ConvertedImage
  used : List String
  pend : List String
deriving DecidableEq

/-- The initial page state: useState([]) on line 16. -/
def initSys : Sys := ⟨[], [], []⟩

/-- One atomic update of the page state.  accept is the synchronous part of
processFile on an image-typed file: line 23 draws an arbitrary 9-character
token from Math.random with no uniqueness check, so the generated identifier
here is an arbitrary string and colliding identifiers are possible
executions; convertOk and convertFail are the two settle continuations, each
firing once per accepted file, with toDataURL always returning a nonempty
data URI; remove and clear are the two user actions. -/
inductive Step : Sys → Sys → Prop where
  | accept (s : Sys) (file : InputFile) (id : String)
      (himg : isImageType file.type = true) :
      Step s ⟨processFileRegister file id s.images, id :: s.used, id :: s.pend⟩
  | convertOk (s : Sys) (id url : String)
      (hp : id ∈ s.pend) (hurl : url ≠ "") :
      Step s ⟨settleSuccess id url s.images, s.used, s.pend.erase id⟩
  | convertFail (s : Sys) (id : String) (hp : id ∈ s.pend) :
      Step s ⟨settleFailure id s.images, s.used, s.pend.erase id⟩
  | remove (s : Sys) (id : String) :
      Step s ⟨removeItem id s.images, s.used, s.pend⟩
  | clear (s : Sys) :
      Step s ⟨clearAll s.images, s.used, s.pend⟩

/-- The states the page can actually be in. -/
inductive Reachable : Sys → Prop where
  | init : Reachable initSys
  | step {s s' : Sys} : Reachable s → Step s s' → Reachable s'

/-- The well-formedness invariant maintained by every collision-free step
(see reachable_wf): every listed id was generated, listed ids are pairwise
distinct, status is done exactly when pngUrl is nonempty, unsettled items are
converting, and the unsettled ids are distinct generated ids.  Identifier
collisions break it: see the dup and col executions below. -/
def WF (s : Sys) : Prop :=
  (∀ it ∈ s.images, it.id ∈ s.used) ∧
  s.images.Pairwise (fun a b => a.id ≠ b.id) ∧
  (∀ it ∈ s.images, (it.status = Status.done ↔ it.pngUrl ≠ "")) ∧
  (∀ it ∈ s.images, it.id ∈ s.pend → it.status = Status.converting) ∧
  s.pend.Nodup ∧
  (∀ x ∈ s.pend, x ∈ s.used)

/-! Archive lemmas -/

theorem zipAdd_cons (e : String × String) (t : List (String × String))
    (n d : String) :
    zipAdd (e :: t) n d = if e.1 = n then (n, d) :: t else e :: zipAdd t n d := rfl

theorem entriesNamed_cons (n : String) (e : String × String)
    (t : List (String × String)) :
    entriesNamed n (e :: t)
      = if e.1 = n then e :: entriesNamed n t else entriesNamed n t := by
  rw [entriesNamed, entriesNamed, List.filter_cons]
  by_cases h : e.1 = n <;> simp [h]

theorem zipAdd_of_not_mem (l : List (String × String)) (n d : String)
    (h : n ∉ l.map Prod.fst) : zipAdd l n d = l ++ [(n, d)] := by
  induction l with
  | nil => rfl
  | cons e t ih =>
      simp only [List.map_cons, List.mem_cons, not_or] at h
      rw [zipAdd_cons, if_neg (fun he => h.1 he.symm), ih h.2, List.cons_append]

theorem map_fst_zipAdd (l : List (String × String)) (n d : String) :
    (zipAdd l n d).map Prod.fst
      = if n ∈ l.map Prod.fst then l.map Prod.fst else l.map Prod.fst ++ [n] := by
  induction l with
  | nil => simp [zipAdd]
  | cons e t ih =>
      rw [zipAdd_cons]
      by_cases he : e.1 = n
      · rw [if_pos he, if_pos (by simp [he])]
        simp [he]
      · rw [if_neg he, List.map_cons, List.map_cons, ih]
        by_cases hn : n ∈ t.map Prod.fst
        · rw [if_pos hn, if_pos (by simp [hn])]
        · have hne : n ∉ e.1 :: t.map Prod.fst := by
            simp only [List.mem_cons, not_or]
            exact ⟨fun hc => he hc.symm, hn⟩
          rw [if_neg hn, if_neg hne, List.cons_append]

theorem nodup_map_fst_zipAdd (l : List (String × String)) (n d : String)
    (h : (l.map Prod.fst).Nodup) : ((zipAdd l n d).map Prod.fst).Nodup := by
  rw [map_fst_zipAdd]
  by_cases hn : n ∈ l.map Prod.fst
  · simpa [hn] using h
  · rw [if_neg hn, List.nodup_append]
    exact ⟨h, List.nodup_singleton n,
      fun a ha hb => hn ((List.mem_singleton.mp hb) ▸ ha)⟩

theorem entriesNamed_nil (n : String) : entriesNamed n [] = [] := rfl

theorem entriesNamed_zipAdd_self (l : List (String × String)) (n d : String)
    (h : (l.map Prod.fst).Nodup) : entriesNamed n (zipAdd l n d) = [(n, d)] := by
  induction l with
  | nil => simp [zipAdd, entriesNamed]
  | cons e t ih =>
      rw [List.map_cons, List.nodup_cons] at h
      rw [zipAdd_cons]
      by_cases he : e.1 = n
      · rw [if_pos he, entriesNamed_cons, if_pos rfl]
        have hnone : entriesNamed n t = [] := by
          rw [entriesNamed, List.filter_eq_nil_iff]
          intro a ha hcontra
          rw [decide_eq_true_eq] at hcontra
          exact h.1 (by rw [he, ← hcontra]; exact List.mem_map_of_mem Prod.fst ha)
        rw [hnone]
      · rw [if_neg he, entriesNamed_cons, if_neg he, ih h.2]

theorem entriesNamed_zipAdd_other (l : List (String × String)) (m n d : String)
    (hmn : m ≠ n) : entriesNamed n (zipAdd l m d) = entriesNamed n l := by
  induction l with
  | nil => simp [zipAdd, entriesNamed, hmn]
  | cons e t ih =>
      rw [zipAdd_cons]
      by_cases he : e.1 = m
      · rw [if_pos he, entriesNamed_cons, entriesNamed_cons, if_neg hmn,
          if_neg (fun hc => hmn (he.symm.trans hc))]
      · rw [if_neg he, entriesNamed_cons, entriesNamed_cons]
        by_cases hen : e.1 = n
        · rw [if_pos hen, if_pos hen, ih]
        · rw [if_neg hen, if_neg hen, ih]

theorem foldl_zipAdd_of_fresh :
    ∀ (l : List ConvertedImage) (acc : List (String × String)),
      (l.map derivedName).Nodup →
      (∀ i ∈ l, derivedName i ∉ acc.map Prod.fst) →
      l.foldl (fun a i => zipAdd a (derivedName i) (stripDataUrl i.pngUrl)) acc
        = acc ++ l.map fun i => (derivedName i, stripDataUrl i.pngUrl) := by
  intro l
  induction l with
  | nil => intro acc _ _; simp
  | cons i t ih =>
      intro acc hnd hfresh
      rw [List.map_cons, List.nodup_cons] at hnd
      rw [List.foldl_cons, zipAdd_of_not_mem _ _ _ (hfresh i (List.mem_cons_self i t)),
        ih (acc ++ [(derivedName i, stripDataUrl i.pngUrl)]) hnd.2 ?_]
      · simp
      · intro j hj
        simp only [List.map_append, List.mem_append, List.map_cons, List.map_nil,
          List.mem_singleton, not_or]
        refine ⟨hfresh j (List.mem_cons_of_mem i hj), fun hc => ?_⟩
        exact hnd.1 (hc ▸ List.mem_map_of_mem derivedName hj)

theorem entriesNamed_foldl (n : String) :
    ∀ (l : List ConvertedImage) (acc : List (String × String)),
      (acc.map Prod.fst).Nodup →
      entriesNamed n
          (l.foldl (fun a i => zipAdd a (derivedName i) (stripDataUrl i.pngUrl)) acc)
        = ((l.filter fun i => decide (derivedName i = n)).getLast?).elim
            (entriesNamed n acc) (fun i => [(n, stripDataUrl i.pngUrl)]) := by
  intro l
  induction l with
  | nil => intro acc _; simp
  | cons i t ih =>
      intro acc hacc
      rw [List.foldl_cons,
        ih _ (nodup_map_fst_zipAdd acc (derivedName i) (stripDataUrl i.pngUrl) hacc),
        List.filter_cons]
      cases hft : t.filter fun j => decide (derivedName j = n) with
      | nil =>
          by_cases hp : derivedName i = n
          · rw [if_pos (by simp [hp])]
            simp only [List.getLast?_nil, List.getLast?_singleton,
              Option.elim_none, Option.elim_some]
            rw [hp]
            exact entriesNamed_zipAdd_self acc n (stripDataUrl i.pngUrl) hacc
          · rw [if_neg (by simp [hp])]
            simp only [List.getLast?_nil, Option.elim_none]
            exact entriesNamed_zipAdd_other acc (derivedName i) n
              (stripDataUrl i.pngUrl) hp
      | cons j u =>
          obtain ⟨x, hx⟩ : ∃ x, (j :: u).getLast? = some x :=
            ⟨(j :: u).getLast (by simp), List.getLast?_eq_getLast (j :: u) (by simp)⟩
          by_cases hp : derivedName i = n
          · rw [if_pos (by simp [hp]), List.getLast?_cons_cons, hx]
            simp
          · rw [if_neg (by simp [hp]), hx]
            simp

/-- A concrete item list with two done items whose original names collide after
extension normalization. -/
def collideImgs : List ConvertedImage :=
  [⟨"1", "a.webp", "data:image/png;base64,AAAA", Status.done⟩,
   ⟨"2", "a.png", "data:image/png;base64,BBBB", Status.done⟩]

/-- C1 counterexample: collideImgs has exactly two done items, yet the archive
built by downloadAll holds a single entry, because both items derive the entry
name "a.png" and the later one overwrites the earlier one. -/
theorem downloadAll_exact_count_cex :
    (collideImgs.filter fun i => decide (i.status = Status.done)).length = 2 ∧
    (downloadAllEntries collideImgs).length = 1 := by decide

/-- C1 (amended): when the derived entry names of the done items are pairwise
distinct, the archive built by downloadAll has exactly one entry per done item,
in order, each named by replacing the original name's extension with ".png" and
carrying the stripped data URL; items in other statuses contribute nothing, and
the archive is saved under the fixed name "converted_images.zip". -/
theorem downloadAll_archive (imgs : List ConvertedImage)
    (h : ((imgs.filter fun i => decide (i.status = Status.done)).map derivedName).Nodup) :
    downloadAllEntries imgs
      = (imgs.filter fun i => decide (i.status = Status.done)).map
          (fun i => (derivedName i, stripDataUrl i.pngUrl)) ∧
    (downloadAllEntries imgs).length
      = (imgs.filter fun i => decide (i.status = Status.done)).length ∧
    downloadAllSaveName = "converted_images.zip" := by
  have he := foldl_zipAdd_of_fresh
    (imgs.filter fun i => decide (i.status = Status.done)) [] h (by simp)
  refine ⟨by simpa [downloadAllEntries] using he, ?_, rfl⟩
  rw [downloadAllEntries, he]
  simp

/-- C1 witness: the amended archive description evaluated on a concrete list
with two done items carrying distinct names, one error item and one converting
item. -/
theorem downloadAll_archive_witness :
    (([⟨"1", "a.webp", "data:image/png;base64,AAAA", Status.done⟩,
       ⟨"2", "b.webp", "data:image/png;base64,BBBB", Status.done⟩,
       ⟨"3", "c.webp", "", Status.error⟩,
       ⟨"4", "d.webp", "", Status.converting⟩].filter
         fun i => decide (i.status = Status.done)).map derivedName).Nodup ∧
    downloadAllEntries
        [⟨"1", "a.webp", "data:image/png;base64,AAAA", Status.done⟩,
         ⟨"2", "b.webp", "data:image/png;base64,BBBB", Status.done⟩,
         ⟨"3", "c.webp", "", Status.error⟩,
         ⟨"4", "d.webp", "", Status.converting⟩]
      = [("a.png", "AAAA"), ("b.png", "BBBB")] :=
  ⟨by decide,
    by
      have hmap := (downloadAll_archive
        [⟨"1", "a.webp", "data:image/png;base64,AAAA", Status.done⟩,
         ⟨"2", "b.webp", "data:image/png;base64,BBBB", Status.done⟩,
         ⟨"3", "c.webp", "", Status.error⟩,
         ⟨"4", "d.webp", "", Status.converting⟩] (by decide)).1
      rw [hmap]; decide⟩

/-- C8: whenever some done items derive a given archive entry name, the
archive built by downloadAll holds exactly one entry under that name, and its
contents are those of the last such item in list order: later entries silently
overwrite earlier ones. -/
theorem downloadAll_collision (imgs : List ConvertedImage) (n : String)
    (i : ConvertedImage) (h : (doneNamed n imgs).getLast? = some i) :
    entriesNamed n (downloadAllEntries imgs) = [(n, stripDataUrl i.pngUrl)] := by
  have hfold := entriesNamed_foldl n
    (imgs.filter fun j => decide (j.status = Status.done)) [] (by simp)
  rw [doneNamed] at h
  rw [downloadAllEntries, hfold, h]
  rfl

/-- C8 witness: on the colliding list, the archive holds the single entry
"a.png" whose contents come from the second (later) done item. -/
theorem downloadAll_collision_witness :
    (doneNamed "a.png" collideImgs).getLast?
      = some ⟨"2", "a.png", "data:image/png;base64,BBBB", Status.done⟩ ∧
    entriesNamed "a.png" (downloadAllEntries collideImgs) = [("a.png", "BBBB")] :=
  ⟨by decide,
    by
      have hcol := downloadAll_collision collideImgs "a.png"
        ⟨"2", "a.png", "data:image/png;base64,BBBB", Status.done⟩ (by decide)
      rw [hcol]; decide⟩

/-! State machine lemmas -/

theorem settleSuccess_elt_id (id url : String) (img : ConvertedImage) :
    ((if img.id = id then { img with pngUrl := url, status := Status.done }
      else img) : ConvertedImage).id = img.id := by
  split <;> rfl

theorem settleFailure_elt_id (id : String) (img : ConvertedImage) :
    ((if img.id = id then { img with status := Status.error }
      else img) : ConvertedImage).id = img.id := by
  split <;> rfl

theorem wf_init : WF initSys := by
  refine ⟨?_, ?_, ?_, ?_, ?_, ?_⟩ <;> simp [initSys, WF]

/-- The generated-identifier history only grows, so an execution is free of
identifier collisions exactly when the reached state's history carries no
duplicate: freshness of each accepted id propagates backwards. -/
theorem used_nodup_of_step {s s' : Sys} (hs : Step s s')
    (hnd : s'.used.Nodup) : s.used.Nodup := by
  cases hs with
  | accept file id himg => exact (List.nodup_cons.mp hnd).2
  | convertOk id url hp hurl => exact hnd
  | convertFail id hp => exact hnd
  | remove id => exact hnd
  | clear => exact hnd

theorem wf_step {s s' : Sys} (hw : WF s) (hs : Step s s')
    (hnd : s'.used.Nodup) : WF s' := by
  obtain ⟨h1, h2, h3, h4, h5, h6⟩ := hw
  cases hs with
  | accept file id himg =>
      have hfresh : id ∉ s.used := (List.nodup_cons.mp hnd).1
      have hreg : processFileRegister file id s.images
          = s.images ++ [⟨id, file.name, "", Status.converting⟩] := by
        simp [processFileRegister, himg]
      refine ⟨?_, ?_, ?_, ?_, ?_, ?_⟩
      · intro it hit
        rw [hreg] at hit
        rcases List.mem_append.mp hit with h | h
        · exact List.mem_cons_of_mem _ (h1 it h)
        · rw [List.mem_singleton] at h
          subst h
          exact List.mem_cons_self _ _
      · rw [hreg]
        apply List.pairwise_append.mpr
        refine ⟨h2, List.pairwise_singleton _ _, ?_⟩
        intro a ha b hb
        rw [List.mem_singleton] at hb
        subst hb
        intro heq
        apply hfresh
        have hai : a.id = id := heq
        exact hai ▸ h1 a ha
      · intro it hit
        rw [hreg] at hit
        rcases List.mem_append.mp hit with h | h
        · exact h3 it h
        · rw [List.mem_singleton] at h
          subst h
          simp
      · intro it hit hid
        rw [hreg] at hit
        rcases List.mem_append.mp hit with h | h
        · rcases List.mem_cons.mp hid with he | he
          · exact absurd (he ▸ h1 it h) hfresh
          · exact h4 it h he
        · rw [List.mem_singleton] at h
          subst h
          rfl
      · exact List.nodup_cons.mpr ⟨fun hmem => hfresh (h6 _ hmem), h5⟩
      · intro x hx
        rcases List.mem_cons.mp hx with he | he
        · exact he ▸ List.mem_cons_self _ _
        · exact List.mem_cons_of_mem _ (h6 x he)
  | convertOk id url hp hurl =>
      refine ⟨?_, ?_, ?_, ?_, h5.erase id, ?_⟩
      · intro it' hit'
        rcases List.mem_map.mp hit' with ⟨it, hit, rfl⟩
        rw [settleSuccess] at hit'
        rw [settleSuccess_elt_id]
        exact h1 it hit
      · rw [settleSuccess]
        exact List.pairwise_map.mpr (h2.imp fun hab => by
          rw [settleSuccess_elt_id, settleSuccess_elt_id]; exact hab)
      · intro it' hit'
        rcases List.mem_map.mp hit' with ⟨it, hit, rfl⟩
        by_cases hid : it.id = id
        · simp [hid, hurl]
        · simpa [hid] using h3 it hit
      · intro it' hit' hpend
        rcases List.mem_map.mp hit' with ⟨it, hit, rfl⟩
        rw [settleSuccess_elt_id] at hpend
        by_cases hid : it.id = id
        · exact absurd hid (h5.mem_erase_iff.mp hpend).1
        · have hpt : it.id ∈ s.pend := (h5.mem_erase_iff.mp hpend).2
          simpa [hid] using h4 it hit hpt
      · intro x hx
        exact h6 x (List.erase_subset _ _ hx)
  | convertFail id hp =>
      refine ⟨?_, ?_, ?_, ?_, h5.erase id, ?_⟩
      · intro it' hit'
        rcases List.mem_map.mp hit' with ⟨it, hit, rfl⟩
        rw [settleFailure_elt_id]
        exact h1 it hit
      · rw [settleFailure]
        exact List.pairwise_map.mpr (h2.imp fun hab => by
          rw [settleFailure_elt_id, settleFailure_elt_id]; exact hab)
      · intro it' hit'
        rcases List.mem_map.mp hit' with ⟨it, hit, rfl⟩
        by_cases hid : it.id = id
        · have hcv : it.status = Status.converting := h4 it hit (hid ▸ hp)
          have hurl : it.pngUrl = "" := by
            by_contra hne
            have := (h3 it hit).mpr hne
            rw [hcv] at this
            exact Status.noConfusion this
          simp [hid, hurl]
        · simpa [hid] using h3 it hit
      · intro it' hit' hpend
        rcases List.mem_map.mp hit' with ⟨it, hit, rfl⟩
        rw [settleFailure_elt_id] at hpend
        by_cases hid : it.id = id
        · exact absurd hid (h5.mem_erase_iff.mp hpend).1
        · have hpt : it.id ∈ s.pend := (h5.mem_erase_iff.mp hpend).2
          simpa [hid] using h4 it hit hpt
      · intro x hx
        exact h6 x (List.erase_subset _ _ hx)
  | remove id =>
      have hsub : List.Sublist (removeItem id s.images) s.images :=
        List.filter_sublist s.images
      refine ⟨?_, List.Pairwise.sublist hsub h2, ?_, ?_, h5, h6⟩
      · exact fun it hit => h1 it (hsub.subset hit)
      · exact fun it hit => h3 it (hsub.subset hit)
      · exact fun it hit hp => h4 it (hsub.subset hit) hp
  | clear =>
      refine ⟨?_, ?_, ?_, ?_, h5, h6⟩ <;> simp [clearAll]

/-- The well-formedness invariant holds in every state reached by an
execution free of identifier collisions. -/
theorem reachable_wf {s : Sys} (h : Reachable s) : s.used.Nodup → WF s := by
  induction h with
  | init => exact fun _ => wf_init
  | step _ hstep ih =>
      intro hnd
      exact wf_step (ih (used_nodup_of_step hstep hnd)) hstep hnd

theorem wf_id_inj {s : Sys} (hw : WF s) {a b : ConvertedImage}
    (ha : a ∈ s.images) (hb : b ∈ s.images) (hid : a.id = b.id) : a = b := by
  by_contra hne
  have hsymm : Symmetric fun a b : ConvertedImage => a.id ≠ b.id :=
    fun x y h he => h he.symm
  exact List.Pairwise.forall hsymm hw.2.1 ha hb hne hid

/-! A concrete execution used by the witnesses: one file that converts
successfully, one image-typed file whose decode fails. -/

def fileW : InputFile := ⟨"photo.webp", "image/webp", some ⟨2, 3, [0, 1, 2, 3, 4, 5]⟩⟩

def fileX : InputFile := ⟨"scan.webp", "image/webp", none⟩

def urlW : String := convertImage ⟨2, 3, [0, 1, 2, 3, 4, 5]⟩

def sys1 : Sys :=
  ⟨[⟨"id1", "photo.webp", "", Status.converting⟩], ["id1"], ["id1"]⟩

def sys2 : Sys :=
  ⟨[⟨"id1", "photo.webp", "", Status.converting⟩,
    ⟨"id2", "scan.webp", "", Status.converting⟩], ["id2", "id1"], ["id2", "id1"]⟩

def sys3 : Sys :=
  ⟨[⟨"id1", "photo.webp", urlW, Status.done⟩,
    ⟨"id2", "scan.webp", "", Status.converting⟩], ["id2", "id1"], ["id2"]⟩

def sys4 : Sys :=
  ⟨[⟨"id1", "photo.webp", urlW, Status.done⟩,
    ⟨"id2", "scan.webp", "", Status.error⟩], ["id2", "id1"], []⟩

def sys5 : Sys :=
  ⟨[⟨"id1", "photo.webp", urlW, Status.done⟩], ["id2", "id1"], []⟩

theorem step_init_sys1 : Step initSys sys1 :=
  Step.accept initSys fileW "id1" rfl

theorem step_sys1_sys2 : Step sys1 sys2 :=
  Step.accept sys1 fileX "id2" rfl

theorem step_sys2_sys3 : Step sys2 sys3 :=
  Step.convertOk sys2 "id1" urlW (by decide) (by decide)

theorem step_sys3_sys4 : Step sys3 sys4 :=
  Step.convertFail sys3 "id2" (by decide)

theorem step_sys4_sys5 : Step sys4 sys5 :=
  Step.remove sys4 "id2"

theorem reach_sys1 : Reachable sys1 := Reachable.step Reachable.init step_init_sys1

theorem reach_sys2 : Reachable sys2 := Reachable.step reach_sys1 step_sys1_sys2

theorem reach_sys3 : Reachable sys3 := Reachable.step reach_sys2 step_sys2_sys3

theorem reach_sys4 : Reachable sys4 := Reachable.step reach_sys3 step_sys3_sys4

/-! Two concrete collision executions, used by the counterexamples: line 23's
Math.random token can repeat, and the settle continuations of lines 37-44
remap every item sharing the repeated identifier. -/

def dup2 : Sys :=
  ⟨[⟨"id1", "photo.webp", urlW, Status.done⟩], ["id1"], []⟩

def dup3 : Sys :=
  ⟨[⟨"id1", "photo.webp", urlW, Status.done⟩,
    ⟨"id1", "scan.webp", "", Status.converting⟩], ["id1", "id1"], ["id1"]⟩

def dup4 : Sys :=
  ⟨[⟨"id1", "photo.webp", urlW, Status.error⟩,
    ⟨"id1", "scan.webp", "", Status.error⟩], ["id1", "id1"], []⟩

theorem step_sys1_dup2 : Step sys1 dup2 :=
  Step.convertOk sys1 "id1" urlW (by decide) (by decide)

theorem step_dup2_dup3 : Step dup2 dup3 :=
  Step.accept dup2 fileX "id1" rfl

theorem step_dup3_dup4 : Step dup3 dup4 :=
  Step.convertFail dup3 "id1" (by decide)

theorem reach_dup3 : Reachable dup3 :=
  Reachable.step (Reachable.step reach_sys1 step_sys1_dup2) step_dup2_dup3

theorem reach_dup4 : Reachable dup4 := Reachable.step reach_dup3 step_dup3_dup4

def col1 : Sys :=
  ⟨[⟨"idX", "scan.webp", "", Status.converting⟩], ["idX"], ["idX"]⟩

def col2 : Sys :=
  ⟨[⟨"idX", "scan.webp", "", Status.converting⟩,
    ⟨"idX", "photo.webp", "", Status.converting⟩], ["idX", "idX"], ["idX", "idX"]⟩

def col3 : Sys :=
  ⟨[⟨"idX", "scan.webp", "", Status.error⟩,
    ⟨"idX", "photo.webp", "", Status.error⟩], ["idX", "idX"], ["idX"]⟩

def col4 : Sys :=
  ⟨[⟨"idX", "scan.webp", urlW, Status.done⟩,
    ⟨"idX", "photo.webp", urlW, Status.done⟩], ["idX", "idX"], []⟩

theorem step_init_col1 : Step initSys col1 :=
  Step.accept initSys fileX "idX" rfl

theorem step_col1_col2 : Step col1 col2 :=
  Step.accept col1 fileW "idX" rfl

theorem step_col2_col3 : Step col2 col3 :=
  Step.convertFail col2 "idX" (by decide)

theorem step_col3_col4 : Step col3 col4 :=
  Step.convertOk col3 "idX" urlW (by decide) (by decide)

theorem reach_col3 : Reachable col3 :=
  Reachable.step (Reachable.step (Reachable.step Reachable.init step_init_col1)
    step_col1_col2) step_col2_col3

/-! Claims C2 to C6 -/

/-- C2: a file whose declared content type does not start with "image/"
registers no item: both the synchronous registration and the whole
processFile call leave the item list unchanged. -/
theorem processFile_skips_nonimage (file : InputFile) (id : String)
    (imgs : List ConvertedImage) (h : isImageType file.type = false) :
    processFileRegister file id imgs = imgs ∧ processFileRun file id imgs = imgs := by
  constructor <;> simp [processFileRegister, processFileRun, h]

/-- C2 witness: a text file named notes.txt is silently skipped. -/
theorem processFile_skips_nonimage_witness :
    isImageType "text/plain" = false ∧
    processFileRun ⟨"notes.txt", "text/plain", none⟩ "id9" [] = [] :=
  ⟨by decide,
    (processFile_skips_nonimage ⟨"notes.txt", "text/plain", none⟩ "id9" []
      (by decide)).2⟩

/-- C3 counterexample: with a repeated random identifier shared by two
pending files (accept idX, accept idX, first decode fails, second succeeds),
the final successful settle remaps items that are already in error status to
done, so at that step a done item has no same-id predecessor that was done or
converting: the no-skip property fails on collision executions. -/
theorem processFile_registers_converting_cex :
    Reachable col3 ∧ Step col3 col4 ∧
    (⟨"idX", "scan.webp", urlW, Status.done⟩ : ConvertedImage) ∈ col4.images ∧
    (⟨"idX", "scan.webp", urlW, Status.done⟩ : ConvertedImage).status
      = Status.done ∧
    ¬ ∃ it ∈ col3.images,
        it.id = (⟨"idX", "scan.webp", urlW, Status.done⟩ : ConvertedImage).id ∧
        (it.status = (⟨"idX", "scan.webp", urlW, Status.done⟩ :
            ConvertedImage).status ∨
          it.status = Status.converting) :=
  ⟨reach_col3, step_col3_col4, by simp [col4], rfl, by decide⟩

/-- C3 (amended): an accepted image file synchronously appends exactly one
item with the generated identifier, empty output and initial status
converting; and in executions free of identifier collisions (the generated
identifiers pairwise distinct, which line 23's Math.random token makes only
probable), no step gives an item status done or error unless a matching item
already carried that status or was converting. -/
theorem processFile_registers_converting :
    (∀ (file : InputFile) (id : String) (imgs : List ConvertedImage),
        isImageType file.type = true →
        processFileRegister file id imgs
          = imgs ++ [⟨id, file.name, "", Status.converting⟩]) ∧
    (∀ s s' : Sys, Reachable s → Step s s' → s'.used.Nodup → ∀ it' ∈ s'.images,
        (it'.status = Status.done ∨ it'.status = Status.error) →
        ∃ it ∈ s.images, it.id = it'.id ∧
          (it.status = it'.status ∨ it.status = Status.converting)) := by
  constructor
  · intro file id imgs h
    simp [processFileRegister, h]
  · intro s s' hr hst hnd it' hit' hstat
    have hw := reachable_wf hr (used_nodup_of_step hst hnd)
    obtain ⟨h1, h2, h3, h4, h5, h6⟩ := hw
    cases hst with
    | accept file id himg =>
        rw [show processFileRegister file id s.images
            = s.images ++ [⟨id, file.name, "", Status.converting⟩] from by
          simp [processFileRegister, himg]] at hit'
        rcases List.mem_append.mp hit' with h | h
        · exact ⟨it', h, rfl, Or.inl rfl⟩
        · rw [List.mem_singleton] at h
          subst h
          rcases hstat with hd | hd <;> exact absurd hd (by simp)
    | convertOk id url hp hurl =>
        rcases List.mem_map.mp hit' with ⟨it, hit, rfl⟩
        by_cases hid : it.id = id
        · exact ⟨it, hit, (settleSuccess_elt_id id url it).symm,
            Or.inr (h4 it hit (hid ▸ hp))⟩
        · refine ⟨it, hit, (settleSuccess_elt_id id url it).symm, Or.inl ?_⟩
          simp [hid]
    | convertFail id hp =>
        rcases List.mem_map.mp hit' with ⟨it, hit, rfl⟩
        by_cases hid : it.id = id
        · exact ⟨it, hit, (settleFailure_elt_id id it).symm,
            Or.inr (h4 it hit (hid ▸ hp))⟩
        · refine ⟨it, hit, (settleFailure_elt_id id it).symm, Or.inl ?_⟩
          simp [hid]
    | remove id =>
        exact ⟨it', (List.filter_sublist s.images).subset hit', rfl, Or.inl rfl⟩
    | clear =>
        exact absurd hit' (by simp [clearAll])

/-- C3 witness: registration of photo.webp appends one converting item, and
across the failing settle step from sys3 to sys4, whose identifiers are
collision-free, the error item descends from a converting item. -/
theorem processFile_registers_converting_witness :
    processFileRegister fileW "id1" []
      = [⟨"id1", "photo.webp", "", Status.converting⟩] ∧
    sys4.used.Nodup ∧
    ∃ it ∈ sys3.images, it.id = "id2" ∧
      (it.status = Status.error ∨ it.status = Status.converting) :=
  ⟨(processFile_registers_converting).1 fileW "id1" [] rfl, by decide,
    (processFile_registers_converting).2 sys3 sys4 reach_sys3 step_sys3_sys4
      (by decide) ⟨"id2", "scan.webp", "", Status.error⟩ (by simp [sys4])
      (Or.inr rfl)⟩

/-- C4 counterexample: after an identifier collision (a done item and a new
converting item share id1), the failing settle of lines 42-44 remaps the done
item to error while keeping its nonempty pngUrl, so in the reachable state
dup4 an item violates the done-iff-populated biconditional. -/
theorem done_iff_output_cex :
    Reachable dup4 ∧
    ¬ ∀ it ∈ dup4.images, (it.status = Status.done ↔ it.pngUrl ≠ "") :=
  ⟨reach_dup4, fun h => by
    have hd := (h ⟨"id1", "photo.webp", urlW, Status.error⟩
      (by simp [dup4])).mpr (by decide)
    exact absurd hd (by decide)⟩

/-- C4 (amended): in every state reached by an execution free of identifier
collisions, an item's status is done exactly when its pngUrl is nonempty. -/
theorem done_iff_output {s : Sys} (h : Reachable s) (hnd : s.used.Nodup) :
    ∀ it ∈ s.images, (it.status = Status.done ↔ it.pngUrl ≠ "") :=
  (reachable_wf h hnd).2.2.1

/-- C4 witness: the invariant evaluated on the done item of the reachable,
collision-free state sys4. -/
theorem done_iff_output_witness :
    sys4.used.Nodup ∧ (Status.done = Status.done ↔ urlW ≠ "") :=
  ⟨by decide,
    done_iff_output reach_sys4 (by decide)
      ⟨"id1", "photo.webp", urlW, Status.done⟩ (by simp [sys4])⟩

/-- C5 counterexample: across the failing settle step from dup3 to dup4 of a
collision execution, the item that was done in dup3 is remapped by id to
error in dup4: a done status is changed by a later operation. -/
theorem status_terminal_cex :
    Reachable dup3 ∧ Step dup3 dup4 ∧
    (⟨"id1", "photo.webp", urlW, Status.done⟩ : ConvertedImage) ∈ dup3.images ∧
    (⟨"id1", "photo.webp", urlW, Status.error⟩ : ConvertedImage) ∈ dup4.images ∧
    (⟨"id1", "photo.webp", urlW, Status.error⟩ : ConvertedImage).id
      = (⟨"id1", "photo.webp", urlW, Status.done⟩ : ConvertedImage).id ∧
    (⟨"id1", "photo.webp", urlW, Status.done⟩ : ConvertedImage).status
      = Status.done ∧
    (⟨"id1", "photo.webp", urlW, Status.error⟩ : ConvertedImage).status
      ≠ Status.done :=
  ⟨reach_dup3, step_dup3_dup4, by simp [dup3], by simp [dup4], rfl, rfl,
    by decide⟩

/-- C5 (amended): across any collision-free step from a reachable state, an
item that is done or error is left entirely unchanged (terminal status), and
no item ever moves back to pending. -/
theorem status_terminal {s s' : Sys} (hr : Reachable s) (hst : Step s s')
    (hnd : s'.used.Nodup)
    {it it' : ConvertedImage} (hit : it ∈ s.images) (hit' : it' ∈ s'.images)
    (hid : it'.id = it.id) :
    ((it.status = Status.done ∨ it.status = Status.error) → it' = it) ∧
    (it'.status = Status.pending → it.status = Status.pending) := by
  have hw := reachable_wf hr (used_nodup_of_step hst hnd)
  obtain ⟨h1, h2, h3, h4, h5, h6⟩ := hw
  cases hst with
  | accept file id himg =>
      have hfresh : id ∉ s.used := (List.nodup_cons.mp hnd).1
      rw [show processFileRegister file id s.images
          = s.images ++ [⟨id, file.name, "", Status.converting⟩] from by
        simp [processFileRegister, himg]] at hit'
      rcases List.mem_append.mp hit' with h | h
      · have : it' = it := wf_id_inj ⟨h1, h2, h3, h4, h5, h6⟩ h hit hid
        subst this
        exact ⟨fun _ => rfl, fun hp => hp⟩
      · rw [List.mem_singleton] at h
        exfalso
        apply hfresh
        have : it'.id = id := by rw [h]
        rw [← this, hid]
        exact h1 it hit
  | convertOk id url hp hurl =>
      rcases List.mem_map.mp hit' with ⟨itb, hitb, rfl⟩
      have hb : itb = it := wf_id_inj ⟨h1, h2, h3, h4, h5, h6⟩ hitb hit
        (by rw [← settleSuccess_elt_id id url itb, hid])
      subst hb
      by_cases hq : itb.id = id
      · have hcv : itb.status = Status.converting := h4 itb hitb (hq ▸ hp)
        constructor
        · intro hde
          rw [hcv] at hde
          rcases hde with hde | hde <;> exact absurd hde (by simp)
        · intro hpend
          rw [if_pos hq] at hpend
          exact absurd hpend (by simp)
      · constructor
        · intro _
          simp [hq]
        · intro hpend
          rw [if_neg hq] at hpend
          exact hpend
  | convertFail id hp =>
      rcases List.mem_map.mp hit' with ⟨itb, hitb, rfl⟩
      have hb : itb = it := wf_id_inj ⟨h1, h2, h3, h4, h5, h6⟩ hitb hit
        (by rw [← settleFailure_elt_id id itb, hid])
      subst hb
      by_cases hq : itb.id = id
      · have hcv : itb.status = Status.converting := h4 itb hitb (hq ▸ hp)
        constructor
        · intro hde
          rw [hcv] at hde
          rcases hde with hde | hde <;> exact absurd hde (by simp)
        · intro hpend
          rw [if_pos hq] at hpend
          exact absurd hpend (by simp)
      · constructor
        · intro _
          simp [hq]
        · intro hpend
          rw [if_neg hq] at hpend
          exact hpend
  | remove id =>
      have : it' = it := wf_id_inj ⟨h1, h2, h3, h4, h5, h6⟩
        ((List.filter_sublist s.images).subset hit') hit hid
      subst this
      exact ⟨fun _ => rfl, fun hp => hp⟩
  | clear =>
      exact absurd hit' (by simp [clearAll])

/-- C5 witness: the done item of sys4 is unchanged by the collision-free
removal step from sys4 to sys5. -/
theorem status_terminal_witness :
    (⟨"id1", "photo.webp", urlW, Status.done⟩ : ConvertedImage)
      = ⟨"id1", "photo.webp", urlW, Status.done⟩ :=
  (status_terminal reach_sys4 step_sys4_sys5 (by decide) (by simp [sys4])
    (by simp [sys5]) rfl).1 (Or.inl rfl)

/-- C6 counterexample: the reachable state dup3, produced by a repeated
Math.random token, lists two items that share the identifier id1. -/
theorem ids_pairwise_distinct_cex :
    Reachable dup3 ∧
    ¬ dup3.images.Pairwise fun a b => a.id ≠ b.id :=
  ⟨reach_dup3, fun h => by
    rw [show dup3.images = [⟨"id1", "photo.webp", urlW, Status.done⟩,
      ⟨"id1", "scan.webp", "", Status.converting⟩] from rfl] at h
    exact (List.pairwise_cons.mp h).1
      ⟨"id1", "scan.webp", "", Status.converting⟩
      (List.mem_cons_self _ _) rfl⟩

/-- C6 (amended): in every state reached by an execution free of identifier
collisions, the identifiers of the listed items are pairwise distinct. -/
theorem ids_pairwise_distinct {s : Sys} (h : Reachable s)
    (hnd : s.used.Nodup) :
    s.images.Pairwise fun a b => a.id ≠ b.id :=
  (reachable_wf h hnd).2.1

/-- C6 witness: the two items of the reachable, collision-free state sys4
carry distinct identifiers. -/
theorem ids_pairwise_distinct_witness :
    sys4.images.Pairwise fun a b => a.id ≠ b.id :=
  ids_pairwise_distinct reach_sys4 (by decide)

/-! Round-trip lemmas for C7 -/

theorem stripDataUrl_mk_append (l : List Char) :
    stripDataUrl (String.mk ("data:image/png;base64,".data ++ l)) = String.mk l := by
  have hp : ("data:image/png;base64,".data).isPrefixOf
      ((String.mk ("data:image/png;base64,".data ++ l)).data) = true := by
    rw [List.isPrefixOf_iff_prefix]
    exact List.prefix_append _ _
  rw [stripDataUrl]
  simp only [hp, if_true]
  congr 1

theorem textToBytes_chunk (b : Nat) (t : List Char) (bs : List Nat)
    (h : textToBytes t = some bs) :
    textToBytes (List.replicate b 'A' ++ 'B' :: t) = some (b :: bs) := by
  induction b with
  | zero => simp [textToBytes, h]
  | succ m ih => simp [List.replicate_succ, textToBytes, ih]

theorem textToBytes_bytesToText (bs : List Nat) :
    textToBytes (bytesToText bs) = some bs := by
  induction bs with
  | nil => rfl
  | cons b t ih =>
      rw [bytesToText]
      exact textToBytes_chunk b _ t ih

theorem pngDecode_pngEncode (bmp : Surface) :
    pngDecode (pngEncode bmp) = some bmp := by
  simp [pngEncode, pngDecode]

/-- C7: converting a valid image (one the decoder turns into a bitmap) and
stripping the data-URI prefix from the stored output yields a decodable PNG
byte stream whose pixel dimensions equal the source bitmap's. -/
theorem convert_roundtrip (file : InputFile) (bmp : Surface)
    (h : createImageBitmap file = some bmp) :
    ∃ out : Surface,
      (textToBytes (stripDataUrl (convertImage bmp)).data).bind pngDecode
        = some out ∧
      out.width = bmp.width ∧ out.height = bmp.height := by
  refine ⟨⟨bmp.width, bmp.height, bmp.pixels⟩, ?_, rfl, rfl⟩
  rw [convertImage, canvasToDataURL, stripDataUrl_mk_append,
    show (String.mk (bytesToText (pngEncode (drawToCanvas bmp)))).data
      = bytesToText (pngEncode (drawToCanvas bmp)) from rfl,
    textToBytes_bytesToText]
  show pngDecode (pngEncode (drawToCanvas bmp))
    = some ⟨bmp.width, bmp.height, bmp.pixels⟩
  rw [pngDecode_pngEncode]
  rfl

/-- C7 witness: the round trip on the 2 by 3 bitmap of photo.webp. -/
theorem convert_roundtrip_witness :
    createImageBitmap fileW = some ⟨2, 3, [0, 1, 2, 3, 4, 5]⟩ ∧
    ∃ out : Surface,
      (textToBytes (stripDataUrl (convertImage ⟨2, 3, [0, 1, 2, 3, 4, 5]⟩)).data).bind
          pngDecode = some out ∧
      out.width = 2 ∧ out.height = 3 :=
  ⟨rfl, convert_roundtrip fileW ⟨2, 3, [0, 1, 2, 3, 4, 5]⟩ rfl⟩

/-! Claims C9 and C10 -/

/-- C9: removing an identifier that no listed item carries leaves the item
list unchanged, and clearing an already-empty list leaves it empty. -/
theorem remove_clear_noop (id : String) (imgs : List ConvertedImage)
    (h : ∀ i ∈ imgs, i.id ≠ id) :
    removeItem id imgs = imgs ∧ clearAll ([] : List ConvertedImage) = [] := by
  refine ⟨?_, rfl⟩
  rw [removeItem, List.filter_eq_self]
  intro i hi
  simpa using h i hi

/-- C9 witness: removing the absent identifier zz from a one-item list is a
no-op, and clearing the empty list yields the empty list. -/
theorem remove_clear_noop_witness :
    removeItem "zz" [⟨"id1", "a.webp", "", Status.converting⟩]
      = [⟨"id1", "a.webp", "", Status.converting⟩] ∧
    clearAll ([] : List ConvertedImage) = [] :=
  remove_clear_noop "zz" [⟨"id1", "a.webp", "", Status.converting⟩] (by decide)

/-- C10: removal produces exactly the items whose id differs from the removed
one — it is a sublist (relative order and all fields preserved), membership is
characterized by the id test, and the multiplicity of any surviving item is
unchanged while every item carrying the removed id is gone. -/
theorem removeItem_frame (id : String) (imgs : List ConvertedImage) :
    List.Sublist (removeItem id imgs) imgs ∧
    (∀ i : ConvertedImage, i ∈ removeItem id imgs ↔ i ∈ imgs ∧ i.id ≠ id) ∧
    (∀ i : ConvertedImage,
      (removeItem id imgs).count i = if i.id = id then 0 else imgs.count i) := by
  refine ⟨List.filter_sublist _, ?_, ?_⟩
  · intro i
    simp [removeItem]
  · intro i
    by_cases h : i.id = id
    · rw [if_pos h, List.count_eq_zero]
      simp [removeItem, h]
    · rw [if_neg h, removeItem]
      exact List.count_filter (by simpa using h)

end Webp2Png
